import Mathlib

/-!
Verification development for the gbk2utf8 tool (src/main.rs).

The Rust program recursively scans a directory tree, detects for each file
with a matching extension whether its bytes are GBK-encoded (after an
absolute valid-UTF-8 early exit), and optionally rewrites the file in place
as UTF-8, with an optional `.bak` backup.

Shallow embedding conventions:
  - Bytes are `Nat` (each < 256 in practice; the definitions do not rely on a
    bound).  File contents are `List Nat`.
  - Decoded text is `List Char` (Rust `String`, always a list of Unicode
    scalar values).
  - The statistical charset guesser (the external `chardetng` crate) is an
    abstract parameter `g : Guess`: given the buffer and the optional TLD
    hint it returns an encoding name and a confidence flag, exactly the data
    `detector.guess_assess` yields to `scan_gbk_file`.
  - The strict GBK decoder (the external `encoding` crate) is an abstract
    parameter `D : GbkDecode`; `none` models `Err(_)` of
    `GBK.decode(..., DecoderTrap::Strict)`.
  - Fallible I/O steps inside `convert_gbk_file` (`fs::copy`,
    `File::create`, `write_all`) are driven by an explicit environment
    `IoEnv`; `File::create` truncates the file and a failing `write_all`
    leaves a written prefix, as in Rust.
  - `min_confidence` is `f64` in the source; it is modelled as `ℚ`.  The
    only confidences compared against it are the exactly representable
    values 1.0 and 0.5, so the embedding into `ℚ` preserves every
    comparison the program makes.
-/

/-- Continuation byte test for UTF-8: second and later bytes of a multibyte
sequence must lie in `0x80 ..= 0xBF`. -/
def contB (b : Nat) : Bool := decide (0x80 ≤ b ∧ b ≤ 0xBF)

/-- Validity of a byte sequence as UTF-8, as checked by Rust's
`std::str::from_utf8`, phrased as the standard UTF-8 acceptance automaton.
The first argument is the list of admissible ranges for the continuation
bytes still owed by the current sequence; from the start state a lead byte
installs the ranges of the standard table (no overlong forms, no surrogates,
nothing above U+10FFFF). -/
def validUtf8Aux : List (Nat × Nat) → List Nat → Bool
  | [], [] => true
  | _ :: _, [] => false
  | [], b :: l =>
    if b ≤ 0x7F then validUtf8Aux [] l
    else if b < 0xC2 then false
    else if b ≤ 0xDF then validUtf8Aux [(0x80, 0xBF)] l
    else if b = 0xE0 then validUtf8Aux [(0xA0, 0xBF), (0x80, 0xBF)] l
    else if b = 0xED then validUtf8Aux [(0x80, 0x9F), (0x80, 0xBF)] l
    else if b ≤ 0xEF then validUtf8Aux [(0x80, 0xBF), (0x80, 0xBF)] l
    else if b = 0xF0 then validUtf8Aux [(0x90, 0xBF), (0x80, 0xBF), (0x80, 0xBF)] l
    else if b ≤ 0xF3 then validUtf8Aux [(0x80, 0xBF), (0x80, 0xBF), (0x80, 0xBF)] l
    else if b = 0xF4 then validUtf8Aux [(0x80, 0x8F), (0x80, 0xBF), (0x80, 0xBF)] l
    else false
  | (lo, hi) :: ps, b :: l => decide (lo ≤ b ∧ b ≤ hi) && validUtf8Aux ps l

/-- Validity of a byte sequence as UTF-8 (`std::str::from_utf8(..).is_ok()`):
run the automaton from the start state. -/
def validUtf8 (l : List Nat) : Bool := validUtf8Aux [] l

/-- Standard UTF-8 encoding of one Unicode scalar value (what Rust writes
for each `char` when a `String` is serialised with `as_bytes`). -/
def encodeChar (c : Nat) : List Nat :=
  if c < 0x80 then [c]
  else if c < 0x800 then [0xC0 + c / 64, 0x80 + c % 64]
  else if c < 0x10000 then [0xE0 + c / 4096, 0x80 + c / 64 % 64, 0x80 + c % 64]
  else [0xF0 + c / 262144, 0x80 + c / 4096 % 64, 0x80 + c / 64 % 64, 0x80 + c % 64]

/-- UTF-8 byte serialisation of decoded text, i.e. `decoded.as_bytes()` for a
Rust `String`. -/
def utf8Encode (s : List Char) : List Nat :=
  (s.map (fun c => encodeChar c.toNat)).flatten

/-- Modelled from the spec: the GB2312 Level-2 hanzi zone pair test used by
the byte-pair heuristics (`byte[i] ∈ [0xB0, 0xF7]` and
`byte[i+1] ∈ [0xA1, 0xFE]`).  These heuristic functions appear in the spec's
Byte Classifier contract but not in `src/main.rs` (the checked-in variant
uses only the statistical guesser), so they are modelled from the spec's
words. -/
def isGbkPair (a b : Nat) : Bool :=
  decide (0xB0 ≤ a ∧ a ≤ 0xF7 ∧ 0xA1 ≤ b ∧ b ≤ 0xFE)

/-- Modelled from the spec: `count_chinese_gbk_pairs` scans raw bytes
pairwise with overlapping windows — a pair starting at every byte index is
inspected and the scan advances by one byte regardless of a match. -/
def count_chinese_gbk_pairs : List Nat → Nat
  | a :: b :: rest => (if isGbkPair a b then 1 else 0) + count_chinese_gbk_pairs (b :: rest)
  | _ => 0

/-- Modelled from the spec: auxiliary scanner for the longest run — advance
by two bytes on a matching pair (extending the current run), by one byte on
a non-match (resetting the run), tracking the best run seen. -/
def maxRunAux : List Nat → Nat → Nat → Nat
  | a :: b :: rest, cur, best =>
    if isGbkPair a b then maxRunAux rest (cur + 1) (max best (cur + 1))
    else maxRunAux (b :: rest) 0 best
  | _, _, best => best

/-- Modelled from the spec: `max_consecutive_gbk_pairs` returns the length of
the longest unbroken run of adjacent GBK-pattern byte pairs; zero-length and
single-byte buffers yield 0. -/
def max_consecutive_gbk_pairs (l : List Nat) : Nat := maxRunAux l 0 0

/-- Configuration of one run (the clap-parsed `Config` struct, minus the
fields that only feed printing).  `min_confidence` is `ℚ` for `f64`. -/
structure Config where
  showInfo : Bool
  scanOnly : Bool
  backup : Bool
  extensions : List String
  minConfidence : ℚ
  tld : Option String

/-- Lowercasing as used by `str::to_lowercase` on the ASCII encoding names
and extension strings this program compares (`Char.toLower` agrees with Rust
on ASCII, the only characters that occur in those strings). -/
def lowerStr (s : String) : String := String.mk (s.data.map Char.toLower)

/-- Abstract interface of the external `chardetng` detector: from the buffer
and the optional TLD hint, the guessed encoding's name and the `confident`
flag of `guess_assess`. -/
abbrev Guess := List Nat → Option String → String × Bool

/-- Abstract interface of the external strict GBK decoder
(`GBK.decode(&content, DecoderTrap::Strict)`): `none` is a decode failure. -/
abbrev GbkDecode := List Nat → Option (List Char)

/-- Embedding of `scan_gbk_file` (src/main.rs lines 81-113), as a function of
the bytes read from the file: valid UTF-8 short-circuits to
`some ("utf-8", 1)`; otherwise the guesser runs and a lowercased name "gbk"
is accepted only at confidence (1 if confident, 1/2 otherwise) at or above
`min_confidence`; a non-"gbk" name is returned only under `show_info`. -/
def scan_gbk_file (g : Guess) (content : List Nat) (cfg : Config) :
    Option (String × ℚ) :=
  if validUtf8 content then some ("utf-8", 1)
  else
    let p := g content cfg.tld
    let name := lowerStr p.1
    if name = "gbk" then
      let confidence : ℚ := if p.2 then 1 else 1/2
      if cfg.minConfidence ≤ confidence then some (name, confidence) else none
    else if cfg.showInfo then some (name, if p.2 then 1 else 1/2)
    else none

/-- Helper for `Path::extension` / `Path::file_stem`: scanning the reversed
file name, split at the first dot found (the last dot of the name).  Returns
the reversed stem and the extension in forward order. -/
def revSplitDot : List Char → Option (List Char × List Char)
  | [] => none
  | c :: rest =>
    if c = '.' then some (rest, [])
    else
      match revSplitDot rest with
      | none => none
      | some (rs, e) => some (rs, e ++ [c])

/-- Rust `Path::extension` on a file name: the part after the last dot,
provided the part before that dot is nonempty (a leading-dot-only name such
as `.gitignore` has no extension). -/
def extCL (l : List Char) : Option (List Char) :=
  match revSplitDot l.reverse with
  | some (rs, e) => if rs = [] then none else some e
  | none => none

/-- Rust `Path::file_stem` on a file name: the part before the last dot, or
the whole name when `extCL` is `none`. -/
def stemCL (l : List Char) : List Char :=
  match revSplitDot l.reverse with
  | some (rs, _) => if rs = [] then l else rs.reverse
  | none => l

/-- Rust `Path::with_extension` on a file name: the stem, followed by a dot
and the new extension when the latter is nonempty. -/
def withExtCL (l ext : List Char) : List Char :=
  stemCL l ++ (if ext = [] then [] else '.' :: ext)

/-- Backup path computed by `convert_gbk_file` (src/main.rs lines 124-127):
`file_path.with_extension(format!("{}.bak", extension().unwrap_or_default()))`. -/
def backupNameCL (l : List Char) : List Char :=
  withExtCL l ((extCL l).getD [] ++ ('.' :: ['b', 'a', 'k']))

/-- String-level wrapper of `backupNameCL`. -/
def backupName (name : String) : String := String.mk (backupNameCL name.data)

/-- String-level wrapper of `extCL` (Rust `Path::extension`). -/
def extensionS (name : String) : Option String :=
  (extCL name.data).map String.mk

/-- Error kinds surfaced by the per-file operations: `invalidData` is the
`io::ErrorKind::InvalidData` error built on GBK decode failure, `ioFail` any
other propagated I/O error. -/
inductive IoErr where
  | invalidData
  | ioFail
deriving DecidableEq, Repr

/-- Outcome environment for the fallible I/O steps of one
`convert_gbk_file` call: whether the initial read, the backup `fs::copy`,
the `File::create` and the `write_all` succeed, and how many bytes a failing
`write_all` managed to write (Rust's `write_all` may write any prefix before
reporting an error; `File::create` has already truncated the file). -/
structure IoEnv where
  readOk : Bool
  copyOk : Bool
  createOk : Bool
  writeOk : Bool
  truncLen : Nat
deriving Repr

/-- Result of one `convert_gbk_file` call: the `io::Result<()>` value
(`none` = `Ok(())`), the bytes the target file holds afterwards, and the
backup file (name and bytes) if one was created. -/
structure ConvertResult where
  result : Option IoErr
  content : List Nat
  backup : Option (String × List Nat)
deriving DecidableEq, Repr

/-- Embedding of `convert_gbk_file` (src/main.rs lines 116-140) over the
file's bytes and the I/O environment.  Order of effects, as in the source:
read, strict GBK decode (failure → `InvalidData`, nothing written), optional
backup copy (failure aborts before any write to the original), then
`File::create` (truncates) followed by `write_all` of the UTF-8 bytes. -/
def convert_gbk_file (D : GbkDecode) (env : IoEnv) (name : String)
    (content : List Nat) (cfg : Config) : ConvertResult :=
  if env.readOk = false then ⟨some .ioFail, content, none⟩
  else
    match D content with
    | none => ⟨some .invalidData, content, none⟩
    | some decoded =>
      if cfg.backup ∧ env.copyOk = false then ⟨some .ioFail, content, none⟩
      else
        let bak := if cfg.backup then some (backupName name, content) else none
        if env.createOk = false then ⟨some .ioFail, content, bak⟩
        else if env.writeOk then ⟨none, utf8Encode decoded, bak⟩
        else ⟨some .ioFail, (utf8Encode decoded).take env.truncLen, bak⟩

/-- Annotation attached to the per-file guess line printed under
`show_info` by `handle_file`: skipped, convertible (scan-only), or
converted. -/
inductive Note where
  | skip
  | convertible
  | converted
deriving DecidableEq, Repr

/-- One line printed by `handle_file` (the model of its `println!` calls):
either the guess line with name, confidence and note, or the
"cannot determine / insufficient confidence" line for a `None` scan. -/
inductive Report where
  | guessLine (name : String) (confidence : ℚ) (note : Note)
  | undetermined
deriving DecidableEq, Repr

/-- Result of one `handle_file` call: the `io::Result<()>` value, the bytes
the file holds afterwards, the backup file if one was created, whether
`convert_gbk_file` was invoked, and the lines printed. -/
structure HandleResult where
  result : Option IoErr
  content : List Nat
  backup : Option (String × List Nat)
  convertInvoked : Bool
  reports : List Report
deriving DecidableEq, Repr

/-- Embedding of `handle_file` (src/main.rs lines 143-180): scan; a
returned "utf-8" label is an immediate skip; otherwise under `show_info` the
guess line is printed with its note; conversion is invoked exactly when the
returned name is "gbk" and `scan_only` is off. -/
def handle_file (g : Guess) (D : GbkDecode) (env : IoEnv) (name : String)
    (content : List Nat) (cfg : Config) : HandleResult :=
  match scan_gbk_file g content cfg with
  | some (encName, confidence) =>
    if encName = "utf-8" then ⟨none, content, none, false, []⟩
    else
      let reports :=
        if cfg.showInfo then
          [Report.guessLine encName confidence
            (if encName ≠ "gbk" then .skip
             else if cfg.scanOnly then .convertible else .converted)]
        else []
      if encName = "gbk" ∧ cfg.scanOnly = false then
        let c := convert_gbk_file D env name content cfg
        ⟨c.result, c.content, c.backup, true, reports⟩
      else ⟨none, content, none, false, reports⟩
  | none => ⟨none, content, none, false, if cfg.showInfo then [.undetermined] else []⟩

/-- Extension filter of `process_files_in_dir` (src/main.rs lines 194-199):
the file's extension, lowercased, must equal some configured extension,
lowercased. -/
def extMatches (cfg : Config) (name : String) : Bool :=
  let ext := ((extCL name.data).getD []).map Char.toLower
  cfg.extensions.any (fun e => e.data.map Char.toLower = ext)

mutual
/-- One entry of a directory tree: a file with its bytes, or a directory
whose entry list is `none` when `fs::read_dir` on it fails (an unreadable
directory) and `some` of its entries otherwise. -/
inductive Entry where
  | file (name : String) (content : List Nat)
  | dir (name : String) (sub : Option Entries)
/-- A list of directory entries, in the order `read_dir` yields them. -/
inductive Entries where
  | nil
  | cons (e : Entry) (rest : Entries)
end

/-- Concatenation of entry lists. -/
def Entries.append : Entries → Entries → Entries
  | .nil, es => es
  | .cons e rest, es => .cons e (rest.append es)

/-- State of the world after (part of) a walk rooted at some directory: the
`io::Result` of `process_files_in_dir` (`some path` = the propagated error
of a failed `fs::read_dir` on `path`), the tree afterwards (in-place file
rewrites persist even when an error aborts the walk, as do the remaining
fields, which model on-disk and `&mut`-accumulated state), the error ledger
(`err` HashMap, keyed by path), the files `handle_file` ran on, the files
`convert_gbk_file` ran on, and the backup files created. -/
structure WalkResult where
  err : Option String
  entries : Entries
  ledger : List (String × IoErr)
  handled : List String
  converted : List String
  backups : List (String × List Nat)

/-- Same data as `WalkResult` for the processing of a single entry. -/
structure EntryResult where
  err : Option String
  entry : Entry
  ledger : List (String × IoErr)
  handled : List String
  converted : List String
  backups : List (String × List Nat)

mutual
/-- Processing of one directory entry by the loop body of
`process_files_in_dir` (src/main.rs lines 188-204): a file is handled when
its extension matches (a handling error goes into the ledger and the walk
continues); a directory is recursed into, and a failing `read_dir` on it
becomes the propagated error. -/
def processEntry (g : Guess) (D : GbkDecode) (env : IoEnv) (cfg : Config)
    (pre : String) : Entry → EntryResult
  | .file name content =>
    if extMatches cfg name then
      let h := handle_file g D env name content cfg
      ⟨none, .file name h.content,
        (match h.result with | some e => [(pre ++ "/" ++ name, e)] | none => []),
        [pre ++ "/" ++ name],
        (if h.convertInvoked then [pre ++ "/" ++ name] else []),
        (match h.backup with | some (bn, bc) => [(pre ++ "/" ++ bn, bc)] | none => [])⟩
    else ⟨none, .file name content, [], [], [], []⟩
  | .dir name none => ⟨some (pre ++ "/" ++ name), .dir name none, [], [], [], []⟩
  | .dir name (some sub) =>
    let rs := process_files_in_dir g D env cfg (pre ++ "/" ++ name) sub
    ⟨rs.err, .dir name (some rs.entries), rs.ledger, rs.handled, rs.converted, rs.backups⟩

/-- Embedding of `process_files_in_dir` (src/main.rs lines 183-208) on the
readable entry list of one directory: entries are processed in order; a
propagated directory error (the `?` on the recursive call) aborts the loop,
leaving the remaining entries untouched and unvisited; everything already
done persists. -/
def process_files_in_dir (g : Guess) (D : GbkDecode) (env : IoEnv)
    (cfg : Config) (pre : String) : Entries → WalkResult
  | .nil => ⟨none, .nil, [], [], [], []⟩
  | .cons e rest =>
    let re := processEntry g D env cfg pre e
    match re.err with
    | some er => ⟨some er, .cons re.entry rest, re.ledger, re.handled, re.converted, re.backups⟩
    | none =>
      let rr := process_files_in_dir g D env cfg pre rest
      ⟨rr.err, .cons re.entry rr.entries, re.ledger ++ rr.ledger,
        re.handled ++ rr.handled, re.converted ++ rr.converted,
        re.backups ++ rr.backups⟩
end

/-- Sample I/O environment in which every I/O step succeeds. -/
def envOk : IoEnv := ⟨true, true, true, true, 0⟩

/-- Sample guesser that always reports GBK confidently (chardetng's answer on
clearly GBK Chinese text). -/
def gGbk : Guess := fun _ _ => ("GBK", true)

/-- Sample guesser that reports GBK without confidence. -/
def gGbkUnsure : Guess := fun _ _ => ("GBK", false)

/-- Sample guesser that reports Big5 confidently (a non-GBK label). -/
def gBig5 : Guess := fun _ _ => ("Big5", true)

/-- Sample strict GBK decoder fragment: decodes the two GBK bytes 0xD6 0xD0
(the character 中) and fails on everything else. -/
def dZhong : GbkDecode := fun c => if c = [0xD6, 0xD0] then some ['中'] else none

/-- Sample configuration: convert (not scan-only), no verbose output, no
backup, extensions c and h, minimum confidence 1, TLD hint cn. -/
def cfgQuiet : Config := ⟨false, false, false, ["c", "h"], 1, some "cn"⟩

/-- Sample configuration like `cfgQuiet` but with backup enabled. -/
def cfgBackup : Config := ⟨false, false, true, ["c", "h"], 1, some "cn"⟩

/-- Sample configuration like `cfgQuiet` but scan-only. -/
def cfgScanQuiet : Config := ⟨false, true, false, ["c", "h"], 1, some "cn"⟩

/-- Sample configuration like `cfgQuiet` but with verbose output enabled. -/
def cfgShowInfo : Config := ⟨true, false, false, ["c", "h"], 1, some "cn"⟩

/-- Sample I/O environment where only the `write_all` step fails, after
writing nothing. -/
def envWriteFail : IoEnv := ⟨true, true, true, false, 0⟩

/-- Sample I/O environment where only the backup `fs::copy` step fails. -/
def envCopyFail : IoEnv := ⟨true, false, true, true, 0⟩

/-- Sample strict GBK decoder that fails on every input. -/
def dNone : GbkDecode := fun _ => none


/-- Encoding a valid Unicode scalar value yields a byte sequence that can be
stripped from the front of any buffer without affecting UTF-8 validity. -/
theorem validUtf8_encodeChar (c : Nat)
    (hv : c < 0xD800 ∨ (0xDFFF < c ∧ c < 0x110000)) (l : List Nat) :
    validUtf8 (encodeChar c ++ l) = validUtf8 l := by
  simp only [validUtf8]
  by_cases h1 : c < 0x80
  · rw [encodeChar, if_pos h1]
    have hb : c ≤ 0x7F := by omega
    simp [validUtf8Aux, hb]
  · by_cases h2 : c < 0x800
    · rw [encodeChar, if_neg h1, if_pos h2]
      simp only [List.cons_append, List.nil_append]
      have a1 : ¬ (0xC0 + c / 64 ≤ 0x7F) := by omega
      have a2 : ¬ (0xC0 + c / 64 < 0xC2) := by omega
      have a3 : 0xC0 + c / 64 ≤ 0xDF := by omega
      have f1 : 0x80 ≤ 0x80 + c % 64 ∧ 0x80 + c % 64 ≤ 0xBF := by omega
      simp [validUtf8Aux, a1, a2, a3, f1]
    · by_cases h3 : c < 0x10000
      · rw [encodeChar, if_neg h1, if_neg h2, if_pos h3]
        simp only [List.cons_append, List.nil_append]
        have f2 : 0x80 ≤ 0x80 + c % 64 ∧ 0x80 + c % 64 ≤ 0xBF := by omega
        by_cases hE0 : c < 0x1000
        · rw [show 0xE0 + c / 4096 = 0xE0 by omega]
          have f1 : 0xA0 ≤ 0x80 + c / 64 % 64 ∧ 0x80 + c / 64 % 64 ≤ 0xBF := by
            omega
          simp [validUtf8Aux, f1, f2]
        · by_cases hED : 0xD000 ≤ c ∧ c < 0xE000
          · rw [show 0xE0 + c / 4096 = 0xED by omega]
            have f1 : 0x80 ≤ 0x80 + c / 64 % 64 ∧ 0x80 + c / 64 % 64 ≤ 0x9F := by
              omega
            simp [validUtf8Aux, f1, f2]
          · have a1 : ¬ (0xE0 + c / 4096 ≤ 0x7F) := by omega
            have a2 : ¬ (0xE0 + c / 4096 < 0xC2) := by omega
            have a3 : ¬ (0xE0 + c / 4096 ≤ 0xDF) := by omega
            have n1 : ¬ (0xE0 + c / 4096 = 0xE0) := by omega
            have n2 : ¬ (0xE0 + c / 4096 = 0xED) := by omega
            have a4 : 0xE0 + c / 4096 ≤ 0xEF := by omega
            have f1 : 0x80 ≤ 0x80 + c / 64 % 64 ∧ 0x80 + c / 64 % 64 ≤ 0xBF := by
              omega
            simp [validUtf8Aux, a1, a2, a3, n1, n2, a4, f1, f2]
      · rw [encodeChar, if_neg h1, if_neg h2, if_neg h3]
        simp only [List.cons_append, List.nil_append]
        have f2 : 0x80 ≤ 0x80 + c / 64 % 64 ∧ 0x80 + c / 64 % 64 ≤ 0xBF := by omega
        have f3 : 0x80 ≤ 0x80 + c % 64 ∧ 0x80 + c % 64 ≤ 0xBF := by omega
        by_cases hF0 : c < 0x40000
        · rw [show 0xF0 + c / 262144 = 0xF0 by omega]
          have f1 : 0x90 ≤ 0x80 + c / 4096 % 64 ∧ 0x80 + c / 4096 % 64 ≤ 0xBF := by
            omega
          simp [validUtf8Aux, f1, f2, f3]
        · by_cases hF4 : 0x100000 ≤ c
          · rw [show 0xF0 + c / 262144 = 0xF4 by omega]
            have f1 : 0x80 ≤ 0x80 + c / 4096 % 64 ∧ 0x80 + c / 4096 % 64 ≤ 0x8F := by
              omega
            simp [validUtf8Aux, f1, f2, f3]
          · have a1 : ¬ (0xF0 + c / 262144 ≤ 0x7F) := by omega
            have a2 : ¬ (0xF0 + c / 262144 < 0xC2) := by omega
            have a3 : ¬ (0xF0 + c / 262144 ≤ 0xDF) := by omega
            have n1 : ¬ (0xF0 + c / 262144 = 0xE0) := by omega
            have n2 : ¬ (0xF0 + c / 262144 = 0xED) := by omega
            have a4 : ¬ (0xF0 + c / 262144 ≤ 0xEF) := by omega
            have n3 : ¬ (0xF0 + c / 262144 = 0xF0) := by omega
            have a5 : 0xF0 + c / 262144 ≤ 0xF3 := by omega
            have f1 : 0x80 ≤ 0x80 + c / 4096 % 64 ∧ 0x80 + c / 4096 % 64 ≤ 0xBF := by
              omega
            simp [validUtf8Aux, a1, a2, a3, n1, n2, a4, n3, a5, f1, f2, f3]

/-- Scalar-value validity carried by every Lean `Char`, matching the Rust
`char` invariant. -/
theorem char_toNat_valid (c : Char) :
    c.toNat < 0xD800 ∨ (0xDFFF < c.toNat ∧ c.toNat < 0x110000) := by
  have := c.valid
  simp only [UInt32.isValidChar, Nat.isValidChar, Char.toNat] at this ⊢
  exact this

/-- UTF-8 serialised text can be stripped from the front of any buffer
without affecting validity. -/
theorem validUtf8_utf8Encode_append (s : List Char) (l : List Nat) :
    validUtf8 (utf8Encode s ++ l) = validUtf8 l := by
  induction s with
  | nil => simp [utf8Encode]
  | cons c cs ih =>
    have h : utf8Encode (c :: cs) = encodeChar c.toNat ++ utf8Encode cs := by
      simp [utf8Encode]
    rw [h, List.append_assoc, validUtf8_encodeChar c.toNat (char_toNat_valid c)]
    exact ih

/-- The bytes Rust writes for any `String` are valid UTF-8: this is what
makes a converted file hit the valid-UTF-8 early exit on a second scan. -/
theorem validUtf8_utf8Encode (s : List Char) : validUtf8 (utf8Encode s) = true := by
  have h := validUtf8_utf8Encode_append s []
  simpa [validUtf8, validUtf8Aux] using h

/-- Prepending a byte can only increase the overlapping pair count. -/
theorem count_le_count_cons (b : Nat) (l : List Nat) :
    count_chinese_gbk_pairs l ≤ count_chinese_gbk_pairs (b :: l) := by
  cases l with
  | nil => simp [count_chinese_gbk_pairs]
  | cons x xs =>
    rw [count_chinese_gbk_pairs]
    by_cases h : isGbkPair b x = true
    · simp [h]
    · simp [h]

/-- Invariant of the run scanner: the result is bounded by the best so far
and the current run extended by the number of matching overlapping pairs
remaining. -/
theorem maxRunAux_le (l : List Nat) (cur best : Nat) :
    maxRunAux l cur best ≤ max best (cur + count_chinese_gbk_pairs l) := by
  match l with
  | [] => simp [maxRunAux, count_chinese_gbk_pairs]
  | [a] => simp [maxRunAux, count_chinese_gbk_pairs]
  | a :: b :: rest =>
    rw [maxRunAux, count_chinese_gbk_pairs]
    by_cases h : isGbkPair a b = true
    · rw [if_pos h, if_pos h]
      have ih := maxRunAux_le rest (cur + 1) (max best (cur + 1))
      have hc := count_le_count_cons b rest
      omega
    · rw [if_neg h, if_neg h]
      have ih := maxRunAux_le (b :: rest) 0 best
      omega

/-- Characterisation of a successful `revSplitDot`: the input is the
extension reversed, then the dot, then the reversed stem. -/
theorem revSplitDot_eq : ∀ {l rs e : List Char},
    revSplitDot l = some (rs, e) → l = e.reverse ++ '.' :: rs := by
  intro l
  induction l with
  | nil => intro rs e h; simp [revSplitDot] at h
  | cons c rest ih =>
    intro rs e h
    rw [revSplitDot] at h
    by_cases hc : c = '.'
    · rw [if_pos hc] at h
      simp only [Option.some.injEq, Prod.mk.injEq] at h
      obtain ⟨h1, h2⟩ := h
      subst h1; subst hc
      simp [← h2]
    · rw [if_neg hc] at h
      cases hm : revSplitDot rest with
      | none => rw [hm] at h; simp at h
      | some p =>
        obtain ⟨rs', e'⟩ := p
        rw [hm] at h
        simp only [Option.some.injEq, Prod.mk.injEq] at h
        obtain ⟨h1, h2⟩ := h
        subst h1
        have hr := ih hm
        subst hr
        simp [← h2, List.reverse_append]

/-- Backup naming for a file that has an extension: the `.bak` suffix is
appended after the existing extension (`foo.c` becomes `foo.c.bak`). -/
theorem backupNameCL_of_ext {l e : List Char} (h : extCL l = some e) :
    backupNameCL l = l ++ ['.', 'b', 'a', 'k'] := by
  rw [extCL] at h
  cases hm : revSplitDot l.reverse with
  | none => rw [hm] at h; simp at h
  | some p =>
    obtain ⟨rs, e'⟩ := p
    rw [hm] at h
    dsimp only at h
    by_cases hrs : rs = []
    · rw [if_pos hrs] at h; simp at h
    · rw [if_neg hrs] at h
      obtain rfl : e' = e := by simpa using h
      have hl := revSplitDot_eq hm
      have hl' : l = rs.reverse ++ '.' :: e' := by
        have h2 := congrArg List.reverse hl
        simpa [List.reverse_append] using h2
      rw [backupNameCL, withExtCL, stemCL, extCL, hm]
      dsimp only
      rw [if_neg hrs, if_neg hrs]
      simp only [Option.getD_some]
      rw [if_neg (by simp)]
      rw [hl']
      simp

/-- String-level backup naming: a file name with an extension gets `.bak`
appended to the full name. -/
theorem backupName_of_ext {name e : String} (h : extensionS name = some e) :
    backupName name = name ++ ".bak" := by
  rw [extensionS] at h
  cases hm : extCL name.data with
  | none => rw [hm] at h; simp at h
  | some ecl =>
    have hb := backupNameCL_of_ext hm
    rw [backupName, hb]
    have h2 : name.data ++ ['.', 'b', 'a', 'k'] = (name ++ ".bak").data := by
      rw [String.data_append]
    cases name with
    | mk d => exact congrArg String.mk h2

/-- Valid UTF-8 hits the early exit of the scan regardless of the guesser. -/
theorem scan_of_validUtf8 (g : Guess) (content : List Nat) (cfg : Config)
    (h : validUtf8 content = true) :
    scan_gbk_file g content cfg = some ("utf-8", 1) := by
  simp [scan_gbk_file, h]

/-- A file whose scan returned the "utf-8" label is skipped whole by
`handle_file`: nothing is touched, converted, backed up or printed. -/
theorem handle_of_validUtf8 (g : Guess) (D : GbkDecode) (env : IoEnv)
    (name : String) (content : List Nat) (cfg : Config)
    (h : validUtf8 content = true) :
    handle_file g D env name content cfg = ⟨none, content, none, false, []⟩ := by
  rw [handle_file, scan_of_validUtf8 g content cfg h]
  simp

/-- Exhaustive case characterisation of `convert_gbk_file`: exactly one of
the six source paths is taken — read failure, decode failure, backup-copy
failure, create failure, full success, or truncating write failure. -/
theorem convert_cases (D : GbkDecode) (env : IoEnv) (name : String)
    (content : List Nat) (cfg : Config) :
    (env.readOk = false ∧
      convert_gbk_file D env name content cfg = ⟨some .ioFail, content, none⟩) ∨
    (env.readOk = true ∧ D content = none ∧
      convert_gbk_file D env name content cfg = ⟨some .invalidData, content, none⟩) ∨
    (∃ d, env.readOk = true ∧ D content = some d ∧
      (cfg.backup = true ∧ env.copyOk = false) ∧
      convert_gbk_file D env name content cfg = ⟨some .ioFail, content, none⟩) ∨
    (∃ d, env.readOk = true ∧ D content = some d ∧
      ¬ (cfg.backup = true ∧ env.copyOk = false) ∧ env.createOk = false ∧
      convert_gbk_file D env name content cfg =
        ⟨some .ioFail, content,
          if cfg.backup then some (backupName name, content) else none⟩) ∨
    (∃ d, env.readOk = true ∧ D content = some d ∧
      ¬ (cfg.backup = true ∧ env.copyOk = false) ∧ env.createOk = true ∧
      env.writeOk = true ∧
      convert_gbk_file D env name content cfg =
        ⟨none, utf8Encode d,
          if cfg.backup then some (backupName name, content) else none⟩) ∨
    (∃ d, env.readOk = true ∧ D content = some d ∧
      ¬ (cfg.backup = true ∧ env.copyOk = false) ∧ env.createOk = true ∧
      env.writeOk = false ∧
      convert_gbk_file D env name content cfg =
        ⟨some .ioFail, (utf8Encode d).take env.truncLen,
          if cfg.backup then some (backupName name, content) else none⟩) := by
  cases hR : env.readOk with
  | false => exact Or.inl ⟨rfl, by simp [convert_gbk_file, hR]⟩
  | true =>
    cases hd : D content with
    | none => exact Or.inr (Or.inl ⟨rfl, rfl, by simp [convert_gbk_file, hR, hd]⟩)
    | some d =>
      by_cases hb : cfg.backup = true ∧ env.copyOk = false
      · exact Or.inr (Or.inr (Or.inl ⟨d, rfl, rfl, hb,
          by simp [convert_gbk_file, hR, hd, hb]⟩))
      · cases hc : env.createOk with
        | false =>
          refine Or.inr (Or.inr (Or.inr (Or.inl ⟨d, rfl, rfl, hb, rfl, ?_⟩)))
          simp [convert_gbk_file, hR, hd, hb, hc]
        | true =>
          cases hw : env.writeOk with
          | true =>
            refine Or.inr (Or.inr (Or.inr (Or.inr (Or.inl
              ⟨d, rfl, rfl, hb, rfl, rfl, ?_⟩))))
            simp [convert_gbk_file, hR, hd, hb, hc, hw]
          | false =>
            refine Or.inr (Or.inr (Or.inr (Or.inr (Or.inr
              ⟨d, rfl, rfl, hb, rfl, rfl, ?_⟩))))
            simp [convert_gbk_file, hR, hd, hb, hc, hw]

/-- A successful conversion wrote exactly the UTF-8 serialisation of the
decoded text, and created the backup exactly when configured to. -/
theorem convert_ok (D : GbkDecode) (env : IoEnv) (name : String)
    (content : List Nat) (cfg : Config)
    (h : (convert_gbk_file D env name content cfg).result = none) :
    ∃ d, D content = some d ∧
      (convert_gbk_file D env name content cfg).content = utf8Encode d ∧
      (convert_gbk_file D env name content cfg).backup =
        (if cfg.backup then some (backupName name, content) else none) := by
  rcases convert_cases D env name content cfg with
    ⟨_, he⟩ | ⟨_, _, he⟩ | ⟨d, _, _, _, he⟩ | ⟨d, _, _, _, _, he⟩ |
    ⟨d, _, hd, _, _, _, he⟩ | ⟨d, _, _, _, _, _, he⟩ <;> rw [he] at h ⊢
  · exact absurd h (by simp)
  · exact absurd h (by simp)
  · exact absurd h (by simp)
  · exact absurd h (by simp)
  · exact ⟨d, hd, rfl, rfl⟩
  · exact absurd h (by simp)

/-- A GBK decode failure produces the `InvalidData` error and leaves the
file bytes untouched, with no backup created. -/
theorem convert_decode_fail (D : GbkDecode) (env : IoEnv) (name : String)
    (content : List Nat) (cfg : Config)
    (hd : D content = none) (hr : env.readOk = true) :
    convert_gbk_file D env name content cfg = ⟨some .invalidData, content, none⟩ := by
  rw [convert_gbk_file, if_neg (by simp [hr]), hd]

/-- A failing backup copy aborts the conversion before any write: the
original bytes survive and no backup is recorded. -/
theorem convert_copy_fail (D : GbkDecode) (env : IoEnv) (name : String)
    (content : List Nat) (cfg : Config) (d : List Char)
    (hb : cfg.backup = true) (hc : env.copyOk = false)
    (hd : D content = some d) (hr : env.readOk = true) :
    convert_gbk_file D env name content cfg = ⟨some .ioFail, content, none⟩ := by
  rw [convert_gbk_file, if_neg (by simp [hr]), hd]
  dsimp only
  rw [if_pos ⟨hb, hc⟩]

/-- On any failed conversion the file holds either its original bytes (read,
decode, copy or create failure) or a truncated prefix of the intended UTF-8
output (failure during `write_all`, after `File::create` truncated it). -/
theorem convert_err_content (D : GbkDecode) (env : IoEnv) (name : String)
    (content : List Nat) (cfg : Config) :
    (convert_gbk_file D env name content cfg).content = content ∨
      ∃ d, D content = some d ∧
        ((convert_gbk_file D env name content cfg).content =
          (utf8Encode d).take env.truncLen ∨
         (convert_gbk_file D env name content cfg).content = utf8Encode d) := by
  rcases convert_cases D env name content cfg with
    ⟨_, he⟩ | ⟨_, _, he⟩ | ⟨d, _, _, _, he⟩ | ⟨d, _, _, _, _, he⟩ |
    ⟨d, _, hd, _, _, _, he⟩ | ⟨d, _, hd, _, _, _, he⟩ <;> rw [he]
  · exact Or.inl rfl
  · exact Or.inl rfl
  · exact Or.inl rfl
  · exact Or.inl rfl
  · exact Or.inr ⟨d, hd, Or.inr rfl⟩
  · exact Or.inr ⟨d, hd, Or.inl rfl⟩

/-- Under scan-only, `handle_file` never errs, never touches the file, never
creates a backup and never invokes conversion. -/
theorem handle_scanOnly (g : Guess) (D : GbkDecode) (env : IoEnv)
    (name : String) (content : List Nat) (cfg : Config)
    (h : cfg.scanOnly = true) :
    (handle_file g D env name content cfg).result = none ∧
    (handle_file g D env name content cfg).content = content ∧
    (handle_file g D env name content cfg).backup = none ∧
    (handle_file g D env name content cfg).convertInvoked = false := by
  rw [handle_file]
  cases hs : scan_gbk_file g content cfg with
  | none => simp
  | some p =>
    obtain ⟨encName, conf⟩ := p
    by_cases hu : encName = "utf-8"
    · simp [hu]
    · have hg : ¬ (encName = "gbk" ∧ cfg.scanOnly = false) := by simp [h]
      simp [hu, hg]

/-- Handling a file a second time, after a first handling that reported no
error, does nothing: the content (now either untouched or freshly written
UTF-8) is preserved, no conversion is invoked, no backup appears. -/
theorem handle_rescan (g : Guess) (D : GbkDecode) (env : IoEnv)
    (name : String) (content : List Nat) (cfg : Config)
    (h : (handle_file g D env name content cfg).result = none) :
    (handle_file g D env name ((handle_file g D env name content cfg).content) cfg).result
        = none ∧
    (handle_file g D env name ((handle_file g D env name content cfg).content) cfg).content
        = (handle_file g D env name content cfg).content ∧
    (handle_file g D env name ((handle_file g D env name content cfg).content) cfg).backup
        = none ∧
    (handle_file g D env name ((handle_file g D env name content cfg).content) cfg).convertInvoked
        = false := by
  cases hs : scan_gbk_file g content cfg with
  | none =>
    have hc : handle_file g D env name content cfg =
        ⟨none, content, none, false, if cfg.showInfo then [.undetermined] else []⟩ := by
      rw [handle_file, hs]
    rw [hc]
    dsimp only
    rw [handle_file, hs]
    simp
  | some p =>
    obtain ⟨encName, conf⟩ := p
    by_cases hu : encName = "utf-8"
    · subst hu
      have hc : handle_file g D env name content cfg = ⟨none, content, none, false, []⟩ := by
        rw [handle_file, hs]; simp
      rw [hc]
      dsimp only
      rw [handle_file, hs]
      simp
    · by_cases hg : encName = "gbk" ∧ cfg.scanOnly = false
      · have hres : (handle_file g D env name content cfg).result =
            (convert_gbk_file D env name content cfg).result := by
          rw [handle_file, hs]; simp [hu, hg]
        have hcontent : (handle_file g D env name content cfg).content =
            (convert_gbk_file D env name content cfg).content := by
          rw [handle_file, hs]; simp [hu, hg]
        obtain ⟨d, hd, hcc, hbk⟩ := convert_ok D env name content cfg (by
          rw [← hres]; exact h)
        have hv : validUtf8 ((handle_file g D env name content cfg).content) = true := by
          rw [hcontent, hcc]; exact validUtf8_utf8Encode d
        rw [handle_of_validUtf8 g D env name _ cfg hv]
        exact ⟨rfl, rfl, rfl, rfl⟩
      · have hcontent : (handle_file g D env name content cfg).content = content := by
          rw [handle_file, hs]; simp [hu, hg]
        rw [hcontent]
        refine ⟨?_, ?_, ?_, ?_⟩ <;> rw [handle_file, hs] <;> simp [hu, hg]

/-- Under show-info and scan-only, an accepted gbk verdict is reported as
convertible. -/
theorem handle_reports_convertible (g : Guess) (D : GbkDecode) (env : IoEnv)
    (name : String) (content : List Nat) (cfg : Config) (q : ℚ)
    (hs : scan_gbk_file g content cfg = some ("gbk", q))
    (hso : cfg.scanOnly = true) (hsi : cfg.showInfo = true) :
    (handle_file g D env name content cfg).reports =
      [.guessLine "gbk" q .convertible] := by
  rw [handle_file, hs]
  simp [hso, hsi]

/-- Unfolding of the walk on a cons cell, with the let-bindings expanded. -/
theorem process_cons (g : Guess) (D : GbkDecode) (env : IoEnv) (cfg : Config)
    (pre : String) (e : Entry) (rest : Entries) :
    process_files_in_dir g D env cfg pre (.cons e rest) =
      match (processEntry g D env cfg pre e).err with
      | some er =>
        ⟨some er, .cons (processEntry g D env cfg pre e).entry rest,
          (processEntry g D env cfg pre e).ledger,
          (processEntry g D env cfg pre e).handled,
          (processEntry g D env cfg pre e).converted,
          (processEntry g D env cfg pre e).backups⟩
      | none =>
        ⟨(process_files_in_dir g D env cfg pre rest).err,
          .cons (processEntry g D env cfg pre e).entry
            (process_files_in_dir g D env cfg pre rest).entries,
          (processEntry g D env cfg pre e).ledger ++
            (process_files_in_dir g D env cfg pre rest).ledger,
          (processEntry g D env cfg pre e).handled ++
            (process_files_in_dir g D env cfg pre rest).handled,
          (processEntry g D env cfg pre e).converted ++
            (process_files_in_dir g D env cfg pre rest).converted,
          (processEntry g D env cfg pre e).backups ++
            (process_files_in_dir g D env cfg pre rest).backups⟩ := by
  rw [process_files_in_dir]

mutual
/-- Under scan-only, processing an entry leaves it unchanged, converts
nothing, backs up nothing and records no error. -/
theorem processEntry_scanOnly (g : Guess) (D : GbkDecode) (env : IoEnv)
    (cfg : Config) (pre : String) (h : cfg.scanOnly = true) : (e : Entry) →
    (processEntry g D env cfg pre e).entry = e ∧
    (processEntry g D env cfg pre e).ledger = [] ∧
    (processEntry g D env cfg pre e).converted = [] ∧
    (processEntry g D env cfg pre e).backups = []
  | .file name content => by
    have hh := handle_scanOnly g D env name content cfg h
    rw [processEntry]
    by_cases hm : extMatches cfg name
    · simp [hm, hh.1, hh.2.1, hh.2.2.1, hh.2.2.2]
    · simp [hm]
  | .dir name none => by
    simp [processEntry]
  | .dir name (some sub) => by
    have ih := process_files_scanOnly g D env cfg (pre ++ "/" ++ name) h sub
    rw [processEntry]
    exact ⟨by simp [ih.1], ih.2.1, ih.2.2.1, ih.2.2.2⟩

/-- Under scan-only, a whole walk mutates no file, converts nothing, backs
up nothing and records no error. -/
theorem process_files_scanOnly (g : Guess) (D : GbkDecode) (env : IoEnv)
    (cfg : Config) (pre : String) (h : cfg.scanOnly = true) : (es : Entries) →
    (process_files_in_dir g D env cfg pre es).entries = es ∧
    (process_files_in_dir g D env cfg pre es).ledger = [] ∧
    (process_files_in_dir g D env cfg pre es).converted = [] ∧
    (process_files_in_dir g D env cfg pre es).backups = []
  | .nil => by simp [process_files_in_dir]
  | .cons e rest => by
    have ihe := processEntry_scanOnly g D env cfg pre h e
    have ihr := process_files_scanOnly g D env cfg pre h rest
    rw [process_cons]
    cases hre : (processEntry g D env cfg pre e).err with
    | some er => simp [ihe.1, ihe.2.1, ihe.2.2.1, ihe.2.2.2]
    | none =>
      simp [ihe.1, ihe.2.1, ihe.2.2.1, ihe.2.2.2,
        ihr.1, ihr.2.1, ihr.2.2.1, ihr.2.2.2]
end

mutual
/-- Re-processing an entry that was processed without error is a no-op:
nothing is converted, backed up, mutated or recorded the second time. -/
theorem processEntry_rescan (g : Guess) (D : GbkDecode) (env : IoEnv)
    (cfg : Config) (pre : String) : (e : Entry) →
    (processEntry g D env cfg pre e).err = none →
    (processEntry g D env cfg pre e).ledger = [] →
    ((processEntry g D env cfg pre ((processEntry g D env cfg pre e).entry)).err = none ∧
     (processEntry g D env cfg pre ((processEntry g D env cfg pre e).entry)).entry
        = (processEntry g D env cfg pre e).entry ∧
     (processEntry g D env cfg pre ((processEntry g D env cfg pre e).entry)).ledger = [] ∧
     (processEntry g D env cfg pre ((processEntry g D env cfg pre e).entry)).converted = [] ∧
     (processEntry g D env cfg pre ((processEntry g D env cfg pre e).entry)).backups = [])
  | .file name content => by
    intro herr hled
    by_cases hm : extMatches cfg name
    · have he : (processEntry g D env cfg pre (.file name content)).entry
          = .file name ((handle_file g D env name content cfg).content) := by
        rw [processEntry]; simp [hm]
      have hl : (processEntry g D env cfg pre (.file name content)).ledger
          = (match (handle_file g D env name content cfg).result with
             | some er => [(pre ++ "/" ++ name, er)] | none => []) := by
        rw [processEntry]; simp [hm]
      rw [hl] at hled
      have hres : (handle_file g D env name content cfg).result = none := by
        cases hr : (handle_file g D env name content cfg).result with
        | none => rfl
        | some er => rw [hr] at hled; simp at hled
      have h2 := handle_rescan g D env name content cfg hres
      rw [he]
      rw [processEntry]
      simp [hm, h2.1, h2.2.1, h2.2.2.1, h2.2.2.2]
    · have he : processEntry g D env cfg pre (.file name content)
          = ⟨none, .file name content, [], [], [], []⟩ := by
        rw [processEntry]; simp [hm]
      rw [he]
      dsimp only
      rw [processEntry]
      simp [hm]
  | .dir name none => by
    intro herr
    rw [processEntry] at herr
    simp at herr
  | .dir name (some sub) => by
    intro herr hled
    have he : processEntry g D env cfg pre (.dir name (some sub)) =
        ⟨(process_files_in_dir g D env cfg (pre ++ "/" ++ name) sub).err,
         .dir name (some (process_files_in_dir g D env cfg (pre ++ "/" ++ name) sub).entries),
         (process_files_in_dir g D env cfg (pre ++ "/" ++ name) sub).ledger,
         (process_files_in_dir g D env cfg (pre ++ "/" ++ name) sub).handled,
         (process_files_in_dir g D env cfg (pre ++ "/" ++ name) sub).converted,
         (process_files_in_dir g D env cfg (pre ++ "/" ++ name) sub).backups⟩ := by
      rw [processEntry]
    rw [he] at herr hled ⊢
    dsimp only at herr hled ⊢
    have ih := process_files_rescan g D env cfg (pre ++ "/" ++ name) sub herr hled
    rw [processEntry]
    simp [ih.1, ih.2.1, ih.2.2.1, ih.2.2.2.1, ih.2.2.2.2]

/-- Re-running a walk that completed without any error is a no-op: the tree
is unchanged and nothing is converted, backed up or recorded. -/
theorem process_files_rescan (g : Guess) (D : GbkDecode) (env : IoEnv)
    (cfg : Config) (pre : String) : (es : Entries) →
    (process_files_in_dir g D env cfg pre es).err = none →
    (process_files_in_dir g D env cfg pre es).ledger = [] →
    ((process_files_in_dir g D env cfg pre
        ((process_files_in_dir g D env cfg pre es).entries)).err = none ∧
     (process_files_in_dir g D env cfg pre
        ((process_files_in_dir g D env cfg pre es).entries)).entries
        = (process_files_in_dir g D env cfg pre es).entries ∧
     (process_files_in_dir g D env cfg pre
        ((process_files_in_dir g D env cfg pre es).entries)).ledger = [] ∧
     (process_files_in_dir g D env cfg pre
        ((process_files_in_dir g D env cfg pre es).entries)).converted = [] ∧
     (process_files_in_dir g D env cfg pre
        ((process_files_in_dir g D env cfg pre es).entries)).backups = [])
  | .nil => by
    intro _ _
    have h0 : process_files_in_dir g D env cfg pre .nil = ⟨none, .nil, [], [], [], []⟩ := by
      rw [process_files_in_dir]
    rw [h0]
    dsimp only
    rw [h0]
    simp
  | .cons e rest => by
    intro herr hled
    cases hre : (processEntry g D env cfg pre e).err with
    | some er =>
      rw [process_cons g D env cfg pre e rest, hre] at herr
      simp at herr
    | none =>
      rw [process_cons g D env cfg pre e rest, hre] at herr hled ⊢
      dsimp only at herr hled ⊢
      obtain ⟨hl1, hl2⟩ := List.append_eq_nil.mp hled
      have ihe := processEntry_rescan g D env cfg pre e hre hl1
      have ihr := process_files_rescan g D env cfg pre rest herr hl2
      rw [process_cons g D env cfg pre ((processEntry g D env cfg pre e).entry)
        ((process_files_in_dir g D env cfg pre rest).entries), ihe.1]
      dsimp only
      simp [ihe.2.1, ihe.2.2.1, ihe.2.2.2.1, ihe.2.2.2.2,
        ihr.1, ihr.2.1, ihr.2.2.1, ihr.2.2.2.1, ihr.2.2.2.2]
end

/-- Propagation of a subdirectory read error: if the walk of the earlier
siblings finishes without error, appending an unreadable directory makes the
whole walk return its error; the earlier siblings keep all their outcomes
and every later sibling is left untouched and unvisited. -/
theorem process_files_direrr (g : Guess) (D : GbkDecode) (env : IoEnv)
    (cfg : Config) (pre : String) (bad : String) (es2 : Entries) : (es1 : Entries) →
    (process_files_in_dir g D env cfg pre es1).err = none →
    ((process_files_in_dir g D env cfg pre
        (es1.append (.cons (.dir bad none) es2))).err = some (pre ++ "/" ++ bad) ∧
     (process_files_in_dir g D env cfg pre
        (es1.append (.cons (.dir bad none) es2))).entries
        = (process_files_in_dir g D env cfg pre es1).entries.append
            (.cons (.dir bad none) es2) ∧
     (process_files_in_dir g D env cfg pre
        (es1.append (.cons (.dir bad none) es2))).ledger
        = (process_files_in_dir g D env cfg pre es1).ledger ∧
     (process_files_in_dir g D env cfg pre
        (es1.append (.cons (.dir bad none) es2))).handled
        = (process_files_in_dir g D env cfg pre es1).handled ∧
     (process_files_in_dir g D env cfg pre
        (es1.append (.cons (.dir bad none) es2))).converted
        = (process_files_in_dir g D env cfg pre es1).converted ∧
     (process_files_in_dir g D env cfg pre
        (es1.append (.cons (.dir bad none) es2))).backups
        = (process_files_in_dir g D env cfg pre es1).backups)
  | .nil => by
    intro _
    have h0 : process_files_in_dir g D env cfg pre .nil = ⟨none, .nil, [], [], [], []⟩ := by
      rw [process_files_in_dir]
    have hb : processEntry g D env cfg pre (.dir bad none)
        = ⟨some (pre ++ "/" ++ bad), .dir bad none, [], [], [], []⟩ := by
      rw [processEntry]
    rw [h0]
    dsimp only
    simp only [Entries.append]
    rw [process_cons g D env cfg pre (.dir bad none) es2, hb]
    simp
  | .cons e rest => by
    intro herr
    cases hre : (processEntry g D env cfg pre e).err with
    | some er =>
      rw [process_cons g D env cfg pre e rest, hre] at herr
      simp at herr
    | none =>
      rw [process_cons g D env cfg pre e rest, hre] at herr
      dsimp only at herr
      have ih := process_files_direrr g D env cfg pre bad es2 rest herr
      simp only [Entries.append]
      rw [process_cons g D env cfg pre e (rest.append (.cons (.dir bad none) es2)), hre]
      rw [process_cons g D env cfg pre e rest, hre]
      dsimp only
      simp [ih.1, ih.2.1, ih.2.2.1, ih.2.2.2.1, ih.2.2.2.2.1, ih.2.2.2.2.2, Entries.append]

/-- When `handle_file` invoked the conversion, its result and final content
are those of `convert_gbk_file`. -/
theorem handle_convert_fields (g : Guess) (D : GbkDecode) (env : IoEnv)
    (name : String) (content : List Nat) (cfg : Config)
    (h : (handle_file g D env name content cfg).convertInvoked = true) :
    (handle_file g D env name content cfg).result
        = (convert_gbk_file D env name content cfg).result ∧
    (handle_file g D env name content cfg).content
        = (convert_gbk_file D env name content cfg).content := by
  rw [handle_file] at h ⊢
  cases hs : scan_gbk_file g content cfg with
  | none => rw [hs] at h; simp at h
  | some p =>
    obtain ⟨encName, conf⟩ := p
    rw [hs] at h
    by_cases hu : encName = "utf-8"
    · simp [hu] at h
    · by_cases hg : encName = "gbk" ∧ cfg.scanOnly = false
      · simp [hu, hg]
      · simp [hu, hg] at h

/-- C1: for every byte buffer that is valid UTF-8, `scan_gbk_file` returns
the label "utf-8" with confidence 1.0, and it does so for every guesser
(the statistical guesser is never consulted: the result does not depend on
`g`); `handle_file` then never invokes `convert_gbk_file` on that buffer
(so GBK decoding is never attempted) and leaves its bytes unchanged. -/
theorem claim_C1_utf8_short_circuit (g g' : Guess) (D : GbkDecode) (env : IoEnv)
    (name : String) (content : List Nat) (cfg : Config)
    (h : validUtf8 content = true) :
    scan_gbk_file g content cfg = some ("utf-8", 1) ∧
    scan_gbk_file g content cfg = scan_gbk_file g' content cfg ∧
    (handle_file g D env name content cfg).convertInvoked = false ∧
    (handle_file g D env name content cfg).content = content := by
  refine ⟨scan_of_validUtf8 g content cfg h, ?_, ?_, ?_⟩
  · rw [scan_of_validUtf8 g content cfg h, scan_of_validUtf8 g' content cfg h]
  · rw [handle_of_validUtf8 g D env name content cfg h]
  · rw [handle_of_validUtf8 g D env name content cfg h]

/-- C1 witness: the ASCII buffer "Hi" is valid UTF-8; on it the scan answers
utf-8 at confidence 1 and handling performs no conversion. -/
theorem claim_C1_witness :
    validUtf8 [72, 105] = true ∧
    scan_gbk_file gGbk [72, 105] cfgQuiet = some ("utf-8", 1) ∧
    (handle_file gGbk dZhong envOk "a.c" [72, 105] cfgQuiet).convertInvoked = false := by
  refine ⟨by decide, ?_, ?_⟩
  · exact (claim_C1_utf8_short_circuit gGbk gBig5 dZhong envOk "a.c" [72, 105]
      cfgQuiet (by decide)).1
  · exact (claim_C1_utf8_short_circuit gGbk gBig5 dZhong envOk "a.c" [72, 105]
      cfgQuiet (by decide)).2.2.1

/-- C4: bytes that strict GBK decoding rejects make `convert_gbk_file` fail
with the InvalidData (decode-failure) error kind, with the file bytes
untouched and no backup copy made. -/
theorem claim_C4_decode_failure (D : GbkDecode) (env : IoEnv) (name : String)
    (content : List Nat) (cfg : Config)
    (hd : D content = none) (hr : env.readOk = true) :
    convert_gbk_file D env name content cfg = ⟨some .invalidData, content, none⟩ :=
  convert_decode_fail D env name content cfg hd hr

/-- C4 witness: a decoder that rejects the byte 0x81 leaves that file
byte-identical and reports InvalidData. -/
theorem claim_C4_witness :
    convert_gbk_file dNone envOk "a.c" [0x81] cfgQuiet
      = ⟨some .invalidData, [0x81], none⟩ :=
  claim_C4_decode_failure dNone envOk "a.c" [0x81] cfgQuiet rfl rfl

/-- C5: with backup enabled, the backup path of a file with an extension is
the name with ".bak" appended after that extension; when the conversion
succeeds the recorded backup holds exactly the pre-conversion bytes at that
path; and a failing copy aborts the conversion with the original bytes
intact and no backup. -/
theorem claim_C5_backup (D : GbkDecode) (env : IoEnv) (name : String)
    (content : List Nat) (cfg : Config) (e : String)
    (hb : cfg.backup = true) (hr : env.readOk = true) :
    (extensionS name = some e → backupName name = name ++ ".bak") ∧
    ((convert_gbk_file D env name content cfg).result = none →
      (convert_gbk_file D env name content cfg).backup
        = some (backupName name, content)) ∧
    (∀ d, D content = some d → env.copyOk = false →
      convert_gbk_file D env name content cfg = ⟨some .ioFail, content, none⟩) := by
  refine ⟨fun h => backupName_of_ext h, ?_, ?_⟩
  · intro h
    obtain ⟨d, hd, hc, hbk⟩ := convert_ok D env name content cfg h
    rw [hbk, if_pos hb]
  · intro d hd hc
    exact convert_copy_fail D env name content cfg d hb hc hd hr

/-- C5 witness: for the file foo.c the backup path is foo.c.bak; a
successful conversion records the original bytes there; a failing copy
leaves the original untouched. -/
theorem claim_C5_witness :
    backupName "foo.c" = "foo.c" ++ ".bak" ∧
    (convert_gbk_file dZhong envOk "foo.c" [0xD6, 0xD0] cfgBackup).backup
      = some (backupName "foo.c", [0xD6, 0xD0]) ∧
    convert_gbk_file dZhong envCopyFail "foo.c" [0xD6, 0xD0] cfgBackup
      = ⟨some .ioFail, [0xD6, 0xD0], none⟩ :=
  ⟨(claim_C5_backup dZhong envOk "foo.c" [0xD6, 0xD0] cfgBackup "c" rfl rfl).1
      (by decide),
   (claim_C5_backup dZhong envOk "foo.c" [0xD6, 0xD0] cfgBackup "c" rfl rfl).2.1
      (by decide),
   (claim_C5_backup dZhong envCopyFail "foo.c" [0xD6, 0xD0] cfgBackup "c" rfl rfl).2.2
      ['中'] (by decide) rfl⟩

/-- C7: for every byte buffer, the longest consecutive run of GBK pairs is
bounded by the overlapping total pair count, both over the same raw-byte
GBK pair interpretation. -/
theorem claim_C7_max_run_le_count (b : List Nat) :
    max_consecutive_gbk_pairs b ≤ count_chinese_gbk_pairs b := by
  have h := maxRunAux_le b 0 0
  simpa [max_consecutive_gbk_pairs] using h

/-- C6: on a buffer that is not valid UTF-8, every verdict the scan returns
carries confidence exactly 1 when the guesser is confident and exactly 1/2
otherwise, and the verdict is the accepted gbk verdict if and only if the
guesser's name lowercases to "gbk" and that confidence is at or above
`min_confidence` (acceptance at the exact threshold included). -/
theorem claim_C6_statistical (g : Guess) (content : List Nat) (cfg : Config)
    (nm : String) (cf : Bool)
    (h1 : validUtf8 content = false) (h2 : g content cfg.tld = (nm, cf)) :
    (scan_gbk_file g content cfg = some ("gbk", if cf then (1 : ℚ) else 1/2) ↔
      (lowerStr nm = "gbk" ∧ cfg.minConfidence ≤ (if cf then (1 : ℚ) else 1/2))) ∧
    (∀ s q, scan_gbk_file g content cfg = some (s, q) →
      q = (if cf then (1 : ℚ) else 1/2)) := by
  have hval : ¬ (validUtf8 content = true) := by simp [h1]
  rw [scan_gbk_file, if_neg hval, h2]
  dsimp only
  constructor
  · constructor
    · intro he
      by_cases hg : lowerStr nm = "gbk"
      · rw [if_pos hg] at he
        by_cases hm : cfg.minConfidence ≤ (if cf then (1 : ℚ) else 1/2)
        · exact ⟨hg, hm⟩
        · rw [if_neg hm] at he
          exact absurd he (by simp)
      · rw [if_neg hg] at he
        by_cases hsi : cfg.showInfo = true
        · rw [if_pos hsi] at he
          simp only [Option.some.injEq, Prod.mk.injEq] at he
          exact absurd he.1 hg
        · rw [if_neg hsi] at he
          exact absurd he (by simp)
    · rintro ⟨hg, hm⟩
      rw [if_pos hg, if_pos hm, hg]
  · intro s q he
    by_cases hg : lowerStr nm = "gbk"
    · rw [if_pos hg] at he
      by_cases hm : cfg.minConfidence ≤ (if cf then (1 : ℚ) else 1/2)
      · rw [if_pos hm] at he
        simp only [Option.some.injEq, Prod.mk.injEq] at he
        exact he.2.symm
      · rw [if_neg hm] at he
        exact absurd he (by simp)
    · rw [if_neg hg] at he
      by_cases hsi : cfg.showInfo = true
      · rw [if_pos hsi] at he
        simp only [Option.some.injEq, Prod.mk.injEq] at he
        exact he.2.symm
      · rw [if_neg hsi] at he
        exact absurd he (by simp)

/-- C6 witness: on the non-UTF-8 GBK bytes of 中, a confident GBK guess is
accepted at threshold 1 with confidence exactly 1. -/
theorem claim_C6_witness :
    scan_gbk_file gGbk [0xD6, 0xD0] cfgQuiet = some ("gbk", 1) := by
  have h := claim_C6_statistical gGbk [0xD6, 0xD0] cfgQuiet "GBK" true (by decide) rfl
  exact h.1.mpr ⟨by decide, by decide⟩

/-- C10: on a buffer that is not valid UTF-8, a guess whose name lowercases
to "gbk" but whose confidence is below `min_confidence` makes the scan
return none whatever `show_info` is — the low-confidence gbk guess is never
surfaced — while a non-"gbk" name is returned with its label and confidence
under `show_info`. -/
theorem claim_C10_low_confidence_suppressed (g : Guess) (content : List Nat)
    (cfg : Config) (nm : String) (cf : Bool)
    (h1 : validUtf8 content = false) (h2 : g content cfg.tld = (nm, cf)) :
    (lowerStr nm = "gbk" → (if cf then (1 : ℚ) else 1/2) < cfg.minConfidence →
      scan_gbk_file g content cfg = none) ∧
    (lowerStr nm ≠ "gbk" → cfg.showInfo = true →
      scan_gbk_file g content cfg
        = some (lowerStr nm, if cf then (1 : ℚ) else 1/2)) := by
  have hval : ¬ (validUtf8 content = true) := by simp [h1]
  rw [scan_gbk_file, if_neg hval, h2]
  dsimp only
  constructor
  · intro hg hm
    rw [if_pos hg, if_neg (not_le.mpr hm)]
  · intro hg hsi
    rw [if_neg hg, if_pos hsi]

/-- C10 witness: an unconfident GBK guess (confidence 1/2, below threshold
1) is suppressed to none even with `show_info` enabled. -/
theorem claim_C10_witness :
    scan_gbk_file gGbkUnsure [0xD6, 0xD0] cfgShowInfo = none :=
  (claim_C10_low_confidence_suppressed gGbkUnsure [0xD6, 0xD0] cfgShowInfo
    "GBK" false (by decide) rfl).1 (by decide) (by norm_num [cfgShowInfo])

/-- C2 counterexample: a GBK file that decodes fine, backup off, with
`File::create` succeeding and `write_all` failing after writing nothing:
`convert_gbk_file` reports failure, yet the file no longer holds its
original bytes — it was truncated to an empty prefix of the intended
output.  This refutes "it fails and the original bytes are left untouched"
and "no partial output file is ever left behind". -/
theorem claim_C2_counterexample :
    (convert_gbk_file dZhong envWriteFail "a.c" [0xD6, 0xD0] cfgQuiet).result ≠ none ∧
    (convert_gbk_file dZhong envWriteFail "a.c" [0xD6, 0xD0] cfgQuiet).content
      ≠ [0xD6, 0xD0] ∧
    (convert_gbk_file dZhong envWriteFail "a.c" [0xD6, 0xD0] cfgQuiet).content = [] := by
  decide

/-- C2 amended: a successful conversion always leaves exactly the valid
UTF-8 re-encoding; a failure at the read, decode, or backup-copy stage
leaves the original bytes untouched; but in general the post-state of a
conversion is only "original bytes, or a (possibly truncated) prefix of the
UTF-8 output" — a failure while creating or writing the output file can
leave a truncated file, so the operation is not atomic under write errors. -/
theorem claim_C2_amended_atomicity (D : GbkDecode) (env : IoEnv) (name : String)
    (content : List Nat) (cfg : Config) :
    ((convert_gbk_file D env name content cfg).result = none →
      ∃ d, D content = some d ∧
        (convert_gbk_file D env name content cfg).content = utf8Encode d ∧
        validUtf8 (convert_gbk_file D env name content cfg).content = true) ∧
    (D content = none →
      (convert_gbk_file D env name content cfg).content = content ∧
      (convert_gbk_file D env name content cfg).backup = none) ∧
    (∀ d, D content = some d → cfg.backup = true → env.copyOk = false →
      env.readOk = true →
      (convert_gbk_file D env name content cfg).content = content) ∧
    ((convert_gbk_file D env name content cfg).content = content ∨
      ∃ d, D content = some d ∧
        ((convert_gbk_file D env name content cfg).content
            = (utf8Encode d).take env.truncLen ∨
         (convert_gbk_file D env name content cfg).content = utf8Encode d)) := by
  refine ⟨?_, ?_, ?_, convert_err_content D env name content cfg⟩
  · intro h
    obtain ⟨d, hd, hc, _⟩ := convert_ok D env name content cfg h
    exact ⟨d, hd, hc, by rw [hc]; exact validUtf8_utf8Encode d⟩
  · intro hd
    rcases convert_cases D env name content cfg with
      ⟨_, he⟩ | ⟨_, _, he⟩ | ⟨d, _, hd2, _, _⟩ | ⟨d, _, hd2, _, _, _⟩ |
      ⟨d, _, hd2, _, _, _, _⟩ | ⟨d, _, hd2, _, _, _, _⟩
    · rw [he]; exact ⟨rfl, rfl⟩
    · rw [he]; exact ⟨rfl, rfl⟩
    · rw [hd] at hd2; exact absurd hd2 (by simp)
    · rw [hd] at hd2; exact absurd hd2 (by simp)
    · rw [hd] at hd2; exact absurd hd2 (by simp)
    · rw [hd] at hd2; exact absurd hd2 (by simp)
  · intro d hd hb hc hr
    rw [convert_copy_fail D env name content cfg d hb hc hd hr]

/-- C2 amended witness: with a failing backup copy the original bytes
survive. -/
theorem claim_C2_amended_witness :
    (convert_gbk_file dZhong envCopyFail "a.c" [0xD6, 0xD0] cfgBackup).content
      = [0xD6, 0xD0] :=
  (claim_C2_amended_atomicity dZhong envCopyFail "a.c" [0xD6, 0xD0] cfgBackup).2.2.1
    ['中'] (by decide) rfl rfl rfl

/-- C3 counterexample: a tree whose first entry is an unreadable directory
and whose second is a processable sibling file.  The walk returns the
directory's error at the top level (the `?` on the recursive call aborts the
whole run, which `main` then reports as a scan failure) and the sibling file
is never handled — refuting "stops descent into that subdirectory only",
"does not crash the whole run" and "sibling files are still processed". -/
theorem claim_C3_counterexample :
    (process_files_in_dir gGbk dZhong envOk cfgQuiet "."
      (.cons (.dir "bad" none) (.cons (.file "b.c" [65]) .nil))).err
      = some "./bad" ∧
    (process_files_in_dir gGbk dZhong envOk cfgQuiet "."
      (.cons (.dir "bad" none) (.cons (.file "b.c" [65]) .nil))).handled = [] := by
  decide

/-- C3 amended: a subdirectory read error does not stay local — it
propagates and aborts the remainder of the walk.  Siblings processed before
the error keep all their outcomes (handled files, ledger entries,
conversions, backups, rewrites persist), while the unreadable directory and
every later sibling are left untouched and unvisited. -/
theorem claim_C3_amended_propagation (g : Guess) (D : GbkDecode) (env : IoEnv)
    (cfg : Config) (pre : String) (bad : String) (es1 es2 : Entries)
    (h : (process_files_in_dir g D env cfg pre es1).err = none) :
    (process_files_in_dir g D env cfg pre
        (es1.append (.cons (.dir bad none) es2))).err = some (pre ++ "/" ++ bad) ∧
    (process_files_in_dir g D env cfg pre
        (es1.append (.cons (.dir bad none) es2))).entries
        = (process_files_in_dir g D env cfg pre es1).entries.append
            (.cons (.dir bad none) es2) ∧
    (process_files_in_dir g D env cfg pre
        (es1.append (.cons (.dir bad none) es2))).ledger
        = (process_files_in_dir g D env cfg pre es1).ledger ∧
    (process_files_in_dir g D env cfg pre
        (es1.append (.cons (.dir bad none) es2))).handled
        = (process_files_in_dir g D env cfg pre es1).handled ∧
    (process_files_in_dir g D env cfg pre
        (es1.append (.cons (.dir bad none) es2))).converted
        = (process_files_in_dir g D env cfg pre es1).converted ∧
    (process_files_in_dir g D env cfg pre
        (es1.append (.cons (.dir bad none) es2))).backups
        = (process_files_in_dir g D env cfg pre es1).backups :=
  process_files_direrr g D env cfg pre bad es2 es1 h

/-- C3 amended witness: with a.c before the unreadable directory and b.c
after it, the walk keeps a.c's outcome, reports the directory error, and
never reaches b.c. -/
theorem claim_C3_amended_witness :
    (process_files_in_dir gGbk dZhong envOk cfgQuiet "."
      ((Entries.cons (.file "a.c" [0xD6, 0xD0]) .nil).append
        (.cons (.dir "bad" none) (.cons (.file "b.c" [65]) .nil)))).err
      = some ("." ++ "/" ++ "bad") ∧
    (process_files_in_dir gGbk dZhong envOk cfgQuiet "."
      ((Entries.cons (.file "a.c" [0xD6, 0xD0]) .nil).append
        (.cons (.dir "bad" none) (.cons (.file "b.c" [65]) .nil)))).handled
      = (process_files_in_dir gGbk dZhong envOk cfgQuiet "."
          (Entries.cons (.file "a.c" [0xD6, 0xD0]) .nil)).handled := by
  have h := claim_C3_amended_propagation gGbk dZhong envOk cfgQuiet "." "bad"
    (Entries.cons (.file "a.c" [0xD6, 0xD0]) .nil)
    (Entries.cons (.file "b.c" [65]) .nil) (by decide)
  exact ⟨h.1, h.2.2.2.1⟩

/-- C8: if a first run over a tree finished without a directory error and
with an empty failure ledger (every invoked conversion succeeded), then a
second run over the resulting tree performs zero conversions and changes no
file; moreover any file the first run converted successfully now holds
valid UTF-8 bytes, which the second scan answers with the utf-8 label. -/
theorem claim_C8_idempotent (g : Guess) (D : GbkDecode) (env : IoEnv)
    (cfg : Config) (pre : String) (es : Entries)
    (herr : (process_files_in_dir g D env cfg pre es).err = none)
    (hled : (process_files_in_dir g D env cfg pre es).ledger = []) :
    (process_files_in_dir g D env cfg pre
        ((process_files_in_dir g D env cfg pre es).entries)).converted = [] ∧
    (process_files_in_dir g D env cfg pre
        ((process_files_in_dir g D env cfg pre es).entries)).entries
        = (process_files_in_dir g D env cfg pre es).entries ∧
    (∀ (nm : String) (ct : List Nat),
      (handle_file g D env nm ct cfg).result = none →
      (handle_file g D env nm ct cfg).convertInvoked = true →
      validUtf8 ((handle_file g D env nm ct cfg).content) = true ∧
      scan_gbk_file g ((handle_file g D env nm ct cfg).content) cfg
        = some ("utf-8", 1)) := by
  have hw := process_files_rescan g D env cfg pre es herr hled
  refine ⟨hw.2.2.2.1, hw.2.1, ?_⟩
  intro nm ct hres hinv
  have hf := handle_convert_fields g D env nm ct cfg hinv
  obtain ⟨d, hd, hc, _⟩ := convert_ok D env nm ct cfg (by rw [← hf.1]; exact hres)
  have hv : validUtf8 ((handle_file g D env nm ct cfg).content) = true := by
    rw [hf.2, hc]; exact validUtf8_utf8Encode d
  exact ⟨hv, scan_of_validUtf8 g _ cfg hv⟩

/-- C8 witness: after a run that converts the single GBK file a.c, a second
run over the resulting tree converts nothing. -/
theorem claim_C8_witness :
    (process_files_in_dir gGbk dZhong envOk cfgQuiet "."
      ((process_files_in_dir gGbk dZhong envOk cfgQuiet "."
        (.cons (.file "a.c" [0xD6, 0xD0]) .nil)).entries)).converted = [] :=
  (claim_C8_idempotent gGbk dZhong envOk cfgQuiet "."
    (.cons (.file "a.c" [0xD6, 0xD0]) .nil) (by decide) (by decide)).1

/-- C9 counterexample: with scan-only on but verbose off, a file the scan
accepts as gbk (conversion-eligible) produces no report at all — refuting
"conversion-eligible files are reported as convertible". -/
theorem claim_C9_counterexample :
    scan_gbk_file gGbk [0xD6, 0xD0] cfgScanQuiet = some ("gbk", 1) ∧
    (handle_file gGbk dZhong envOk "a.c" [0xD6, 0xD0] cfgScanQuiet).reports = [] := by
  decide

/-- C9 amended: with scan-only on, a run mutates no file, invokes no
conversion and creates no backup; a conversion-eligible file is reported as
convertible exactly in verbose mode (with `show_info` off nothing is
printed for it). -/
theorem claim_C9_amended_scan_only (g : Guess) (D : GbkDecode) (env : IoEnv)
    (cfg : Config) (pre : String) (es : Entries) (h : cfg.scanOnly = true) :
    (process_files_in_dir g D env cfg pre es).entries = es ∧
    (process_files_in_dir g D env cfg pre es).converted = [] ∧
    (process_files_in_dir g D env cfg pre es).backups = [] ∧
    (∀ (nm : String) (ct : List Nat),
      (handle_file g D env nm ct cfg).convertInvoked = false ∧
      (handle_file g D env nm ct cfg).content = ct) ∧
    (∀ (nm : String) (ct : List Nat) (q : ℚ), cfg.showInfo = true →
      scan_gbk_file g ct cfg = some ("gbk", q) →
      (handle_file g D env nm ct cfg).reports
        = [.guessLine "gbk" q .convertible]) := by
  have hw := process_files_scanOnly g D env cfg pre h es
  refine ⟨hw.1, hw.2.2.1, hw.2.2.2, ?_, ?_⟩
  · intro nm ct
    have hh := handle_scanOnly g D env nm ct cfg h
    exact ⟨hh.2.2.2, hh.2.1⟩
  · intro nm ct q hsi hs
    exact handle_reports_convertible g D env nm ct cfg q hs h hsi

/-- C9 amended witness: a scan-only run over a tree with one GBK file leaves
the tree unchanged and converts nothing. -/
theorem claim_C9_amended_witness :
    (process_files_in_dir gGbk dZhong envOk cfgScanQuiet "."
        (.cons (.file "a.c" [0xD6, 0xD0]) .nil)).entries
      = .cons (.file "a.c" [0xD6, 0xD0]) .nil ∧
    (process_files_in_dir gGbk dZhong envOk cfgScanQuiet "."
        (.cons (.file "a.c" [0xD6, 0xD0]) .nil)).converted = [] := by
  have h := claim_C9_amended_scan_only gGbk dZhong envOk cfgScanQuiet "."
    (.cons (.file "a.c" [0xD6, 0xD0]) .nil) rfl
  exact ⟨h.1, h.2.1⟩
